import Mathlib

/-!
Verification of the auto-settlement service (settlementService.js) and its
settlement data model (Settlement.js).

The service reads market snapshots from an external ledger, decides which
markets are past their deadline and still active, drives the finalize action
(`releaseRewards`), and persists a `SettlementRecord`.  All ledger-side
numeric values arrive as arbitrary-precision integers (BigInt); the service
converts them with JavaScript `Number(...)` and computes rewards with
IEEE-754 double-precision arithmetic (`Math.floor(totalPool * 0.05)`).

We model doubles exactly: a JavaScript number is the rational value of the
nearest binary64 float, and every arithmetic step rounds its exact rational
result to 53 significant bits with round-to-nearest, ties-to-even.
-/

attribute [local semireducible] Rat.add Rat.mul Rat.sub Rat.inv

/-- Fuelled base-2 logarithm: `lg2F f n` is `⌊log₂ n⌋` whenever `n < 2^f`. -/
def lg2F : ℕ → ℕ → ℕ
  | 0, _ => 0
  | f+1, n => if 2 ≤ n then lg2F f (n/2) + 1 else 0

/-- `⌊log₂ n⌋` for every `n < 2^1100` (covers all numbers this model meets). -/
def lg2 (n : ℕ) : ℕ := lg2F 1100 n

/-- Round a rational to an integer, round-to-nearest with ties to even. -/
def rne (x : ℚ) : ℤ :=
  if Int.fract x < 1/2 then ⌊x⌋
  else if 1/2 < Int.fract x then ⌊x⌋ + 1
  else if ⌊x⌋ % 2 = 0 then ⌊x⌋ else ⌊x⌋ + 1

/-- The binade of a positive rational: the unique `e` with `2^e ≤ q < 2^(e+1)`
(for `q` whose reduced numerator and denominator are below `2^1100`). -/
def ilog2 (q : ℚ) : ℤ :=
  let c : ℤ := (lg2 q.num.natAbs : ℤ) - (lg2 q.den : ℤ)
  if q < 2^c then c - 1 else c

/-- Round a positive rational to 53 significant binary digits (binade-exact
scaling, round to nearest, ties to even): the exact value of the nearest
IEEE-754 binary64 float. -/
def posRound (q : ℚ) : ℚ :=
  let e : ℤ := ilog2 q - 52
  (rne (q / 2^e) : ℚ) * 2^e

/-- The exact rational value of the double nearest to `q` (sign-symmetric). -/
def toDouble (q : ℚ) : ℚ :=
  if q = 0 then 0 else if q < 0 then -posRound (-q) else posRound q

/-- JavaScript `Number(b)` applied to a ledger BigInt `b`. -/
def jsNumber (n : ℕ) : ℚ := toDouble n

/-- JavaScript `+` on two numbers: exact sum, rounded to a double. -/
def jsAdd (a b : ℚ) : ℚ := toDouble (a + b)

/-- JavaScript `-` on two numbers: exact difference, rounded to a double. -/
def jsSub (a b : ℚ) : ℚ := toDouble (a - b)

/-- JavaScript `*` on two numbers: exact product, rounded to a double. -/
def jsMul (a b : ℚ) : ℚ := toDouble (a * b)

/-- JavaScript `Math.floor` on a double (the result is always exact). -/
def jsFloor (x : ℚ) : ℚ := (⌊x⌋ : ℚ)

/-- The double literal `0.05` appearing in `totalPool * 0.05`. -/
def d05 : ℚ := toDouble (1/20)

set_option maxRecDepth 4000


/-- One market tuple as returned by `contract.getMarket(i)`:
`[creator, endTime, yesVotes, noVotes, totalStaked, isActive, metadata, memes]`.
Numeric fields are the ledger's arbitrary-precision integers. -/
structure MarketData where
  creator : String
  endTime : ℕ
  yesVotes : ℕ
  noVotes : ℕ
  totalStaked : ℕ
  isActive : Bool
  metadata : String
  memes : List String
  deriving DecidableEq, Repr

/-- One entry of the `participants` array of the settlement schema. -/
structure Participant where
  address : String
  vote : String
  staked : String
  payout : String
  won : Bool
  deriving DecidableEq, Repr

/-- The persisted `SettlementRecord` document (Settlement.js schema).
`totalStaked` is stored as the decimal string of the exact BigInt, so we keep
it as `ℕ`; `creatorReward`/`voterRewards` are stringified JavaScript numbers,
so we keep their exact double values as `ℚ`; `endTimeMs` is the millisecond
value passed to `new Date(Number(endTime) * 1000)`. -/
structure SettlementRecord where
  marketId : ℕ
  templateCreator : String
  endTimeMs : ℚ
  totalVotes : ℚ
  yesVotes : ℚ
  noVotes : ℚ
  totalStaked : ℕ
  winnerSide : String
  creatorReward : ℚ
  voterRewards : ℚ
  settlementTx : String
  blockNumber : ℕ
  gasUsed : ℕ
  participants : List Participant
  deriving DecidableEq, Repr

/-- The settlement store: the collection of persisted `SettlementRecord`s. -/
structure Store where
  records : List SettlementRecord
  deriving DecidableEq, Repr

/-- `insert` with the schema's `unique: true` key on `marketId`: fails with a
duplicate-key error (`none`) when a record with the same id already exists. -/
def insertRecord (s : Store) (r : SettlementRecord) : Option Store :=
  if s.records.any (fun r0 => r0.marketId == r.marketId) then none
  else some ⟨r :: s.records⟩

/-- `SettlementRecord.find` on `participants.address` (server.js,
`GET /api/user-settlements/:address`). -/
def findByParticipant (s : Store) (addr : String) : List SettlementRecord :=
  s.records.filter (fun r => r.participants.any (fun p => p.address == addr))

/-- Outcomes of the external steps of one settlement attempt, plus the
transaction data a successful attempt observes.  `insertOk = false` models a
store-side `save()` failure other than the duplicate-key violation (which is
modelled structurally by `insertRecord`). -/
structure SettleEnv where
  estimateOk : Bool
  submitOk : Bool
  confirmOk : Bool
  insertOk : Bool
  txHash : String
  blockNumber : ℕ
  gasUsed : ℕ
  deriving DecidableEq, Repr

/-- The record built by `storeSettlementRecord` from the market tuple and the
confirmed transaction, with the exact JavaScript arithmetic of the source:
`totalVotes = Number(yes) + Number(no)`,
`winnerSide = Number(yes) > Number(no) ? 'funny' : 'lame'`,
`creatorReward = Math.floor(Number(totalStaked) * 0.05)`,
`voterRewards = Number(totalStaked) - creatorReward`,
`participants` never populated. -/
def settlementRecordOf (marketId : ℕ) (m : MarketData) (txHash : String)
    (blockNumber gasUsed : ℕ) : SettlementRecord :=
  let totalPool := jsNumber m.totalStaked
  let creatorReward := jsFloor (jsMul totalPool d05)
  { marketId := marketId
    templateCreator := m.creator
    endTimeMs := jsMul (jsNumber m.endTime) 1000
    totalVotes := jsAdd (jsNumber m.yesVotes) (jsNumber m.noVotes)
    yesVotes := jsNumber m.yesVotes
    noVotes := jsNumber m.noVotes
    totalStaked := m.totalStaked
    winnerSide := if jsNumber m.yesVotes > jsNumber m.noVotes then "funny" else "lame"
    creatorReward := creatorReward
    voterRewards := jsSub totalPool creatorReward
    settlementTx := txHash
    blockNumber := blockNumber
    gasUsed := gasUsed
    participants := [] }

/-- `storeSettlementRecord`: builds the record and `save()`s it; every error
(duplicate key or any other store failure) is caught and logged, leaving the
store unchanged. -/
def storeSettlementRecord (env : SettleEnv) (s : Store) (marketId : ℕ)
    (m : MarketData) : Store :=
  if env.insertOk then
    match insertRecord s (settlementRecordOf marketId m env.txHash env.blockNumber env.gasUsed) with
    | some s1 => s1
    | none => s
  else s

/-- Result of one `settleMarket` call: the returned boolean, whether the
finalize transaction (`releaseRewards`) was actually submitted to the ledger,
and the store afterwards. -/
structure SettleResult where
  success : Bool
  finalizeSubmitted : Bool
  store : Store
  deriving DecidableEq, Repr

/-- `settleMarket(marketId, marketData)`: estimate gas, submit
`releaseRewards`, await confirmation, then `storeSettlementRecord`.  Any error
in estimate/submit/confirm is caught and turned into `false`; note that a
record-persistence failure is swallowed inside `storeSettlementRecord`, so the
call still returns `true`. -/
def settleMarket (env : SettleEnv) (s : Store) (marketId : ℕ)
    (m : MarketData) : SettleResult :=
  if env.estimateOk = false then ⟨false, false, s⟩
  else if env.submitOk = false then ⟨false, true, s⟩
  else if env.confirmOk = false then ⟨false, true, s⟩
  else ⟨true, true, storeSettlementRecord env s marketId m⟩

/-- What the scan did at one market index. -/
inductive MarketOutcome where
  | fetchError
  | inactive
  | notYetEligible
  | attempted (finalizeSubmitted : Bool) (success : Bool)
  deriving DecidableEq, Repr

/-- Whether an outcome involved submitting the finalize action. -/
def MarketOutcome.finalizeInvoked : MarketOutcome → Bool
  | .attempted true _ => true
  | _ => false

/-- The environment one scan runs in: `marketCount()` (`none` models a failed
call, which aborts the scan), per-index `getMarket` (`none` models a fetch
error, caught per market), per-index settlement-step outcomes, and the scan's
wall clock `now = Math.floor(Date.now() / 1000)`. -/
structure ScanEnv where
  marketCount : Option ℕ
  fetchMarket : ℕ → Option MarketData
  settleEnv : ℕ → SettleEnv
  now : ℕ

/-- One iteration of the loop in `checkAndSettleMarkets`: fetch the market
(errors caught per index), skip if `!isActive`, compute
`timeLeft = Number(endTime) - now` and settle only when `timeLeft <= 0`. -/
def processMarket (env : ScanEnv) (s : Store) (i : ℕ) : Store × MarketOutcome :=
  match env.fetchMarket i with
  | none => (s, .fetchError)
  | some m =>
    if m.isActive = false then (s, .inactive)
    else if jsSub (jsNumber m.endTime) (jsNumber env.now) ≤ 0 then
      let r := settleMarket (env.settleEnv i) s i m
      (r.store, .attempted r.finalizeSubmitted r.success)
    else (s, .notYetEligible)

/-- Result of one full scan: the store afterwards and the per-index outcomes
in increasing index order. -/
structure ScanResult where
  store : Store
  outcomes : List MarketOutcome
  deriving DecidableEq, Repr

/-- One `foldl` step of the scan loop: process the next index, thread the
store and append the outcome. -/
def scanStep (env : ScanEnv) (acc : ScanResult) (i : ℕ) : ScanResult :=
  let p := processMarket env acc.store i
  ⟨p.1, acc.outcomes ++ [p.2]⟩

/-- `checkAndSettleMarkets`: read `marketCount` (failure aborts the scan with
no outcomes), then process indices `0 .. marketCount-1` in order. -/
def checkAndSettleMarkets (env : ScanEnv) (s : Store) : ScanResult :=
  match env.marketCount with
  | none => ⟨s, []⟩
  | some n => (List.range n).foldl (scanStep env) (⟨s, []⟩ : ScanResult)

/-- The outcome at one index, which depends only on that index's part of the
environment (see `processMarket_outcome_store_indep`). -/
def outcomeOf (env : ScanEnv) (i : ℕ) : MarketOutcome :=
  (processMarket env ⟨[]⟩ i).2

/-- The outcome the scan recorded at index `i`. -/
def scanOutcome (env : ScanEnv) (s : Store) (i : ℕ) : MarketOutcome :=
  (checkAndSettleMarkets env s).outcomes.getD i .fetchError

/-- `manualSettle(marketId)`: fetch a fresh snapshot — that error is rethrown
to the caller — then run `settleMarket`, whose result is returned as-is. -/
def manualSettle (fetch : Option MarketData) (env : SettleEnv) (s : Store)
    (marketId : ℕ) : Except String SettleResult :=
  match fetch with
  | none => .error "getMarket failed"
  | some m => .ok (settleMarket env s marketId m)

/-- The projection returned by `getSettlementStatus`. -/
structure StatusProjection where
  marketId : ℕ
  isActive : Bool
  timeLeft : ℚ
  readyForSettlement : Bool
  yesVotes : ℚ
  noVotes : ℚ
  totalStakedWei : ℕ
  deriving DecidableEq, Repr

/-- `getSettlementStatus(marketId)`: fetch a snapshot (fetch errors are
rethrown), compute `timeLeft = Number(endTime) - now` and
`readyForSettlement = timeLeft <= 0 && isActive`.  Pure: it touches no store
and submits nothing. -/
def getSettlementStatus (fetch : Option MarketData) (now marketId : ℕ) :
    Except String StatusProjection :=
  match fetch with
  | none => .error "getMarket failed"
  | some m =>
    let timeLeft := jsSub (jsNumber m.endTime) (jsNumber now)
    .ok { marketId := marketId
          isActive := m.isActive
          timeLeft := timeLeft
          readyForSettlement := decide (timeLeft ≤ 0) && m.isActive
          yesVotes := jsNumber m.yesVotes
          noVotes := jsNumber m.noVotes
          totalStakedWei := m.totalStaked }

/-- State of the cron scheduler installed by `start()`: the `isRunning` flag,
the number of scans currently in flight, and counters for started and skipped
scans. -/
structure SchedState where
  running : Bool
  activeScans : ℕ
  startedCount : ℕ
  skippedCount : ℕ
  deriving DecidableEq, Repr

/-- Scheduler events: a cron tick firing, and a scan exiting (normally or by
throwing — the `finally` block runs either way). -/
inductive SchedEvent where
  | tick
  | scanExit (threw : Bool)
  deriving DecidableEq, Repr

/-- The tick handler of `start()`: a tick with `isRunning` set logs a skip and
does nothing else; otherwise it sets the flag and starts a scan.  A scan exit
(the `finally` block) clears the flag, whether or not the scan threw. -/
def schedStep (s : SchedState) : SchedEvent → SchedState
  | .tick =>
    if s.running then { s with skippedCount := s.skippedCount + 1 }
    else { s with running := true, activeScans := s.activeScans + 1,
                  startedCount := s.startedCount + 1 }
  | .scanExit _ =>
    if s.activeScans = 0 then s
    else { s with running := false, activeScans := s.activeScans - 1 }

/-- The scheduler state after a sequence of events, from the initial state of
`start()` (flag clear, no scan in flight). -/
def schedRun (evs : List SchedEvent) : SchedState :=
  evs.foldl schedStep ⟨false, 0, 0, 0⟩

/-- Uniqueness invariant of the store: no two records share a `marketId`. -/
@[reducible] def uniqueIds (s : Store) : Prop :=
  (s.records.map (fun r => r.marketId)).Nodup

/-- An example market snapshot: active, deadline 1760000000, tallies 7/3,
`totalStaked = 101` (the spec's own worked example). -/
def mEx : MarketData :=
  ⟨"0xCreatorA", 1760000000, 7, 3, 101, true, "meta", []⟩

/-- A market staking `2^53 + 26` wei minus 47 — the value `9007199254740979`,
below `2^53`, on which floating-point `Math.floor(n * 0.05)` differs from
exact `floor(n * 5 / 100)`. -/
def mBig : MarketData := { mEx with totalStaked := 9007199254740979 }

/-- A tied market (`yesVotes = noVotes = 5`). -/
def mTie : MarketData := { mEx with yesVotes := 5, noVotes := 5 }

/-- A market with `yesVotes = 2^53 + 1 > noVotes = 2^53`, indistinguishable
after the `Number(...)` conversion. -/
def mHugeVotes : MarketData :=
  { mEx with yesVotes := 9007199254740993, noVotes := 9007199254740992 }

/-- A market whose deadline `2^53 + 1` is not representable as a double. -/
def mLateHuge : MarketData := { mEx with endTime := 9007199254740993 }

/-- A market whose deadline is still ahead of the example clock. -/
def mFuture : MarketData := { mEx with endTime := 1760141800 }

/-- An already-settled market (`isActive = false`). -/
def mInactive : MarketData := { mEx with isActive := false }

/-- Settlement steps all succeeding. -/
def envOk : SettleEnv := ⟨true, true, true, true, "0xhash", 123, 50000⟩

/-- Settlement environment whose record persistence (`save()`) fails. -/
def envInsertFail : SettleEnv := { envOk with insertOk := false }

/-- Settlement environment whose gas estimation fails. -/
def envEstFail : SettleEnv := { envOk with estimateOk := false }

/-- Settlement environment whose confirmation wait fails. -/
def envConfirmFail : SettleEnv := { envOk with confirmOk := false }

/-- The empty store. -/
def store0 : Store := ⟨[]⟩

/-- The record the engine writes for `mEx`. -/
def recEx : SettlementRecord := settlementRecordOf 7 mEx "0xhash" 123 50000

/-- A store already holding a record for market 7. -/
def store1 : Store := ⟨[recEx]⟩

/-- A five-market scan: index 0 is eligible but its gas estimate fails,
index 1's snapshot fetch throws, index 2 is eligible and settles, index 3 is
active with a future deadline, index 4 is inactive. -/
def scanEnvEx : ScanEnv :=
  { marketCount := some 5
    fetchMarket := fun i =>
      if i = 0 then some mEx
      else if i = 1 then none
      else if i = 2 then some mEx
      else if i = 3 then some mFuture
      else some mInactive
    settleEnv := fun i => if i = 0 then envEstFail else envOk
    now := 1760140800 }

/-! ### Properties of the binary64 rounding model -/

theorem lg2F_spec : ∀ (f n : ℕ), 1 ≤ n → n < 2^f →
    2^(lg2F f n) ≤ n ∧ n < 2^(lg2F f n + 1) := by
  intro f
  induction f with
  | zero => intro n h1 h2; omega
  | succ f ih =>
    intro n h1 h2
    by_cases h : 2 ≤ n
    · have hm1 : 1 ≤ n / 2 := by omega
      have hm2 : n / 2 < 2^f := by
        have h2' : n < 2^f * 2 := by rw [pow_succ] at h2; exact h2
        omega
      obtain ⟨hl, hr⟩ := ih (n / 2) hm1 hm2
      have hstep : lg2F (f+1) n = lg2F f (n/2) + 1 := by
        simp [lg2F, h]
      rw [hstep]
      constructor
      · calc 2^(lg2F f (n/2) + 1) = 2 * 2^(lg2F f (n/2)) := by ring
        _ ≤ 2 * (n / 2) := by omega
        _ ≤ n := by omega
      · have hn : n < 2 * (n / 2) + 2 := by omega
        calc n < 2 * (n / 2) + 2 := hn
        _ ≤ 2 * 2^(lg2F f (n/2) + 1) := by omega
        _ = 2^(lg2F f (n/2) + 1 + 1) := by ring
    · have hn1 : n = 1 := by omega
      subst hn1
      simp [lg2F, h]

theorem lg2_spec (n : ℕ) (h1 : 1 ≤ n) (h2 : n < 2^1100) :
    2^(lg2 n) ≤ n ∧ n < 2^(lg2 n + 1) :=
  lg2F_spec 1100 n h1 h2

theorem rne_intCast (k : ℤ) : rne (k : ℚ) = k := by
  simp [rne, Int.fract_intCast]

theorem rne_le (x : ℚ) : (rne x : ℚ) ≤ x + 1/2 := by
  have hfl : (⌊x⌋ : ℚ) ≤ x := Int.floor_le x
  have hsum : (⌊x⌋ : ℚ) + Int.fract x = x := Int.floor_add_fract x
  have h1 : Int.fract x < 1 := Int.fract_lt_one x
  unfold rne
  split
  · linarith
  · split
    · push_cast; linarith
    · split
      · linarith
      · have : Int.fract x = 1/2 := by
          rename_i h2 h3 _
          have := not_lt.mp h2
          have := not_lt.mp h3
          linarith
        push_cast; linarith

theorem le_rne (x : ℚ) : x - 1/2 ≤ (rne x : ℚ) := by
  have hfl : (⌊x⌋ : ℚ) ≤ x := Int.floor_le x
  have hsum : (⌊x⌋ : ℚ) + Int.fract x = x := Int.floor_add_fract x
  have h0 : 0 ≤ Int.fract x := Int.fract_nonneg x
  have h1 : Int.fract x < 1 := Int.fract_lt_one x
  unfold rne
  split
  · rename_i h2; linarith
  · split
    · push_cast; linarith
    · split
      · rename_i h2 h3 _
        have : Int.fract x = 1/2 := by
          have := not_lt.mp h2
          have := not_lt.mp h3
          linarith
        linarith
      · push_cast; linarith

theorem ilog2_spec (q : ℚ) (hq : 0 < q)
    (hnum : q.num.natAbs < 2^1100) (hden : q.den < 2^1100) :
    (2:ℚ)^(ilog2 q) ≤ q ∧ q < (2:ℚ)^(ilog2 q + 1) := by
  have hn0 : 0 < q.num := Rat.num_pos.mpr hq
  have hna : 1 ≤ q.num.natAbs := by omega
  have hd0 : 0 < q.den := q.pos
  obtain ⟨ha1, ha2⟩ := lg2_spec q.num.natAbs hna hnum
  obtain ⟨hb1, hb2⟩ := lg2_spec q.den hd0 hden
  have hnum_eq : ((q.num.natAbs : ℤ)) = q.num := Int.natAbs_of_nonneg hn0.le
  have hdenq : (0:ℚ) < (q.den : ℚ) := by exact_mod_cast hd0
  have hq_eq : q = (q.num : ℚ) / (q.den : ℚ) := (Rat.num_div_den q).symm
  set a := lg2 q.num.natAbs with ha_def
  set b := lg2 q.den with hb_def
  have hza1 : (2^a : ℤ) ≤ q.num := by rw [← hnum_eq]; exact_mod_cast ha1
  have hza2 : q.num < (2^(a+1) : ℤ) := by rw [← hnum_eq]; exact_mod_cast ha2
  have hca1 : (2:ℚ)^((a:ℤ)) ≤ (q.num : ℚ) := by
    rw [zpow_natCast]; exact_mod_cast hza1
  have hca2 : (q.num : ℚ) < (2:ℚ)^((a:ℤ)+1) := by
    rw [show ((a:ℤ)+1) = ((a+1 : ℕ) : ℤ) by push_cast; ring, zpow_natCast]
    exact_mod_cast hza2
  have hcb1 : (2:ℚ)^((b:ℤ)) ≤ (q.den : ℚ) := by
    rw [zpow_natCast]; exact_mod_cast hb1
  have hcb2 : (q.den : ℚ) < (2:ℚ)^((b:ℤ)+1) := by
    rw [show ((b:ℤ)+1) = ((b+1 : ℕ) : ℤ) by push_cast; ring, zpow_natCast]
    exact_mod_cast hb2
  have hpow_pos : ∀ (z : ℤ), (0:ℚ) < 2^z := fun z => zpow_pos two_pos z
  have hlow : (2:ℚ)^((a:ℤ) - ((b:ℤ)+1)) < q := by
    rw [zpow_sub₀ (two_ne_zero), hq_eq]
    calc (2:ℚ)^((a:ℤ)) / (2:ℚ)^((b:ℤ)+1)
        < (2:ℚ)^((a:ℤ)) / (q.den : ℚ) :=
          div_lt_div_of_pos_left (hpow_pos a) hdenq hcb2
    _ ≤ (q.num : ℚ) / (q.den : ℚ) := (div_le_div_iff_of_pos_right hdenq).mpr hca1
  have hup : q < (2:ℚ)^(((a:ℤ)+1) - (b:ℤ)) := by
    rw [zpow_sub₀ (two_ne_zero), hq_eq]
    calc (q.num : ℚ) / (q.den : ℚ)
        < (2:ℚ)^((a:ℤ)+1) / (q.den : ℚ) := (div_lt_div_iff_of_pos_right hdenq).mpr hca2
    _ ≤ (2:ℚ)^((a:ℤ)+1) / (2:ℚ)^((b:ℤ)) :=
          (div_le_div_iff_of_pos_left (hpow_pos _) hdenq (hpow_pos _)).mpr hcb1
  have hilog : ilog2 q =
      (if q < 2^((a:ℤ) - (b:ℤ)) then (a:ℤ) - (b:ℤ) - 1 else (a:ℤ) - (b:ℤ)) := rfl
  rw [hilog]
  split
  · rename_i hsplit
    constructor
    · have : (a:ℤ) - ((b:ℤ)+1) = (a:ℤ) - (b:ℤ) - 1 := by ring
      rw [this] at hlow
      exact hlow.le
    · rw [show (a:ℤ) - (b:ℤ) - 1 + 1 = (a:ℤ) - (b:ℤ) by ring]
      exact hsplit
  · rename_i hsplit
    constructor
    · exact not_lt.mp hsplit
    · have : ((a:ℤ)+1) - (b:ℤ) = (a:ℤ) - (b:ℤ) + 1 := by ring
      rw [this] at hup
      exact hup

theorem posRound_eq (q : ℚ) :
    posRound q = (rne (q / 2^(ilog2 q - 52)) : ℚ) * 2^(ilog2 q - 52) := rfl

theorem posRound_le (q : ℚ) (hq : 0 < q)
    (hnum : q.num.natAbs < 2^1100) (hden : q.den < 2^1100) :
    posRound q ≤ q + q * (2:ℚ)^(-53 : ℤ) := by
  obtain ⟨hl, _⟩ := ilog2_spec q hq hnum hden
  set e : ℤ := ilog2 q - 52 with he
  have h2e : (0:ℚ) < 2^e := zpow_pos two_pos e
  have hx := rne_le (q / 2^e)
  have hhalf : (2:ℚ)^e / 2 = 2^(ilog2 q) * 2^(-53:ℤ) := by
    rw [div_eq_mul_inv, ← zpow_sub_one₀ (two_ne_zero (α := ℚ)) e,
      ← zpow_add₀ (two_ne_zero (α := ℚ)) (ilog2 q) (-53:ℤ)]
    congr 1
    omega
  calc posRound q = (rne (q / 2^e) : ℚ) * 2^e := rfl
  _ ≤ (q / 2^e + 1/2) * 2^e := mul_le_mul_of_nonneg_right hx h2e.le
  _ = q + 2^e / 2 := by field_simp; ring
  _ = q + 2^(ilog2 q) * 2^(-53:ℤ) := by rw [hhalf]
  _ ≤ q + q * 2^(-53:ℤ) := by
      have : (2:ℚ)^(ilog2 q) * 2^(-53:ℤ) ≤ q * 2^(-53:ℤ) :=
        mul_le_mul_of_nonneg_right hl (zpow_pos two_pos _).le
      linarith

theorem le_posRound (q : ℚ) (hq : 0 < q)
    (hnum : q.num.natAbs < 2^1100) (hden : q.den < 2^1100) :
    q - q * (2:ℚ)^(-53 : ℤ) ≤ posRound q := by
  obtain ⟨hl, _⟩ := ilog2_spec q hq hnum hden
  set e : ℤ := ilog2 q - 52 with he
  have h2e : (0:ℚ) < 2^e := zpow_pos two_pos e
  have hx := le_rne (q / 2^e)
  have hhalf : (2:ℚ)^e / 2 = 2^(ilog2 q) * 2^(-53:ℤ) := by
    rw [div_eq_mul_inv, ← zpow_sub_one₀ (two_ne_zero (α := ℚ)) e,
      ← zpow_add₀ (two_ne_zero (α := ℚ)) (ilog2 q) (-53:ℤ)]
    congr 1
    omega
  have hml : (2:ℚ)^(ilog2 q) * 2^(-53:ℤ) ≤ q * 2^(-53:ℤ) :=
    mul_le_mul_of_nonneg_right hl (zpow_pos two_pos _).le
  calc q - q * 2^(-53:ℤ) ≤ q - 2^(ilog2 q) * 2^(-53:ℤ) := by linarith
  _ = q - 2^e / 2 := by rw [hhalf]
  _ = (q / 2^e - 1/2) * 2^e := by field_simp; ring
  _ ≤ (rne (q / 2^e) : ℚ) * 2^e := mul_le_mul_of_nonneg_right hx h2e.le
  _ = posRound q := rfl

theorem posRound_natCast (n : ℕ) (h1 : 1 ≤ n) (h2 : n < 2^53) :
    posRound (n:ℚ) = (n:ℚ) := by
  have hq : (0:ℚ) < n := by exact_mod_cast h1
  have hnum : ((n:ℚ)).num.natAbs < 2^1100 := by
    rw [Rat.num_natCast]
    simp only [Int.natAbs_ofNat]
    calc n < 2^53 := h2
    _ ≤ 2^1100 := Nat.pow_le_pow_right (by omega) (by omega)
  have hden : ((n:ℚ)).den < 2^1100 := by
    rw [Rat.den_natCast]
    exact Nat.one_lt_two_pow_iff.mpr (by omega)
  obtain ⟨hl, _⟩ := ilog2_spec (n:ℚ) hq hnum hden
  have hlt : ilog2 (n:ℚ) < 53 := by
    have hcast : ((n:ℚ)) < (2:ℚ)^(53:ℤ) := by
      rw [show ((53:ℤ)) = ((53:ℕ):ℤ) by norm_num, zpow_natCast]
      exact_mod_cast h2
    have := lt_of_le_of_lt hl hcast
    exact (zpow_lt_zpow_iff_right₀ one_lt_two).mp this
  set e : ℤ := ilog2 (n:ℚ) - 52 with he
  have hene : e ≤ 0 := by omega
  set k : ℕ := (-e).toNat with hk_def
  have hkz : ((k:ℤ)) = -e := Int.toNat_of_nonneg (by omega)
  have hk : (2:ℚ)^(-e) = ((2^k : ℕ) : ℚ) := by
    push_cast
    rw [← zpow_natCast (2:ℚ) k, hkz]
  have hx : (n:ℚ) / 2^e = (((n * 2^k : ℕ) : ℤ) : ℚ) := by
    rw [div_eq_mul_inv, ← zpow_neg, hk]
    push_cast
    ring
  calc posRound (n:ℚ) = (rne ((n:ℚ) / 2^e) : ℚ) * 2^e := rfl
  _ = (((n * 2^k : ℕ) : ℤ) : ℚ) * 2^e := by rw [hx, rne_intCast]
  _ = ((n:ℚ) * 2^(-e)) * 2^e := by rw [hk]; push_cast; ring
  _ = (n:ℚ) * 2^(-e+e) := by rw [zpow_add₀ (two_ne_zero (α := ℚ))]; ring
  _ = (n:ℚ) := by norm_num

theorem toDouble_natCast (n : ℕ) (h : n < 2^53) : toDouble (n:ℚ) = (n:ℚ) := by
  by_cases h0 : n = 0
  · subst h0; simp [toDouble]
  · have h1 : 1 ≤ n := by omega
    have hq : (0:ℚ) < n := by exact_mod_cast h1
    unfold toDouble
    rw [if_neg (by exact_mod_cast h0), if_neg (not_lt.mpr (by positivity))]
    exact posRound_natCast n h1 h

theorem toDouble_intCast (z : ℤ) (h : z.natAbs < 2^53) : toDouble (z:ℚ) = (z:ℚ) := by
  rcases lt_trichotomy z 0 with hz | hz | hz
  · have habs : ((z.natAbs : ℤ)) = -z := by omega
    have hnn : ((z.natAbs : ℕ) : ℚ) = -(z:ℚ) := by
      rw [Int.cast_natAbs, abs_of_neg hz]
      push_cast
      ring
    have hzq : (z:ℚ) < 0 := by exact_mod_cast hz
    unfold toDouble
    rw [if_neg (by exact_mod_cast hz.ne), if_pos hzq, ← hnn,
      posRound_natCast z.natAbs (by omega) h, hnn]
    ring
  · subst hz; simp [toDouble]
  · have habs : ((z.natAbs : ℤ)) = z := by omega
    have hzn : ((z.natAbs : ℕ) : ℚ) = (z:ℚ) := by
      rw [Int.cast_natAbs, abs_of_pos hz]
    have hzq : (0:ℚ) < (z:ℚ) := by exact_mod_cast hz
    unfold toDouble
    rw [if_neg hzq.ne.symm, if_neg (by linarith), ← hzn,
      posRound_natCast z.natAbs (by omega) h]

theorem d05_val : d05 = 3602879701896397 / 72057594037927936 := by decide

theorem d05_pos : 0 < d05 := by rw [d05_val]; norm_num

theorem d05_lt : d05 < 1/19 := by rw [d05_val]; norm_num

theorem eps53_val : (2:ℚ)^(-53:ℤ) = 1/9007199254740992 := by
  rw [zpow_neg, show ((53:ℤ)) = ((53:ℕ):ℤ) by norm_num, zpow_natCast]
  norm_num

theorem num_den_bound (q : ℚ) (a : ℤ) (b : ℕ) (ha : a ≠ 0) (hb : b ≠ 0)
    (h : q = (a:ℚ) / (b:ℚ)) : q.num.natAbs ≤ a.natAbs ∧ q.den ≤ b := by
  have hbz : ((b:ℤ)) ≠ 0 := by exact_mod_cast hb
  have hq : q = Rat.divInt a (b:ℤ) := by
    rw [Rat.divInt_eq_div, h]
    norm_cast
  constructor
  · have hdvd : (Rat.divInt a (b:ℤ)).num ∣ a := Rat.num_dvd a hbz
    rw [hq]
    exact Nat.le_of_dvd (by omega) (Int.natAbs_dvd_natAbs.mpr hdvd)
  · have hdvd : (((Rat.divInt a (b:ℤ)).den : ℤ)) ∣ (b:ℤ) := Rat.den_dvd a (b:ℤ)
    rw [hq]
    exact Nat.le_of_dvd (by omega) (Int.natCast_dvd_natCast.mp hdvd)

theorem nd05_eq (n : ℕ) :
    (n:ℚ) * d05 = (((n * 3602879701896397 : ℕ) : ℤ) : ℚ) / ((2^56 : ℕ) : ℚ) := by
  rw [d05_val]
  push_cast
  ring

theorem toDouble_of_pos (y : ℚ) (hy : 0 < y) : toDouble y = posRound y := by
  unfold toDouble
  rw [if_neg hy.ne.symm, if_neg (not_lt.mpr hy.le)]

/-- The reward split of `storeSettlementRecord` adds back up to the exact
stake whenever `totalStaked` is below `2^53`: the `Number` conversion is then
exact, `0 ≤ Math.floor(totalPool * 0.05) ≤ totalPool`, and the final
subtraction of two integers below `2^53` is again exact. -/
theorem creator_voter_sum (n : ℕ) (h : n < 2^53) :
    jsFloor (jsMul (jsNumber n) d05) + jsSub (jsNumber n) (jsFloor (jsMul (jsNumber n) d05))
      = (n:ℚ) := by
  by_cases h0 : n = 0
  · subst h0
    show jsFloor (jsMul (jsNumber 0) d05) + jsSub (jsNumber 0) (jsFloor (jsMul (jsNumber 0) d05)) = 0
    decide
  · have h1 : 1 ≤ n := by omega
    have hnq : (0:ℚ) < n := by exact_mod_cast h1
    have hn : jsNumber n = (n:ℚ) := toDouble_natCast n h
    set y : ℚ := (n:ℚ) * d05 with hy_def
    have hy : 0 < y := mul_pos hnq d05_pos
    have hrep := nd05_eq n
    have hane : (((n * 3602879701896397 : ℕ) : ℤ)) ≠ 0 := by
      have : n * 3602879701896397 ≠ 0 := by positivity
      exact_mod_cast this
    obtain ⟨hnumb, hdenb⟩ := num_den_bound y ((n * 3602879701896397 : ℕ) : ℤ) (2^56)
      hane (by positivity) hrep
    have hnum1100 : y.num.natAbs < 2^1100 := by
      have hstep : ((n * 3602879701896397 : ℕ) : ℤ).natAbs < 2^110 := by
        have hn2 : n * 3602879701896397 < 2^53 * 2^57 := by
          apply Nat.mul_lt_mul_of_lt_of_lt h
          norm_num
        have habs : ((n * 3602879701896397 : ℕ) : ℤ).natAbs = n * 3602879701896397 := by
          omega
        rw [habs]
        calc n * 3602879701896397 < 2^53 * 2^57 := hn2
        _ = 2^110 := by norm_num
      calc y.num.natAbs ≤ ((n * 3602879701896397 : ℕ) : ℤ).natAbs := hnumb
      _ < 2^110 := hstep
      _ < 2^1100 := Nat.pow_lt_pow_right (by omega) (by omega)
    have hden1100 : y.den < 2^1100 := by
      calc y.den ≤ 2^56 := hdenb
      _ < 2^1100 := Nat.pow_lt_pow_right (by omega) (by omega)
    have hub := posRound_le y hy hnum1100 hden1100
    have hlb := le_posRound y hy hnum1100 hden1100
    have hx : jsMul (jsNumber n) d05 = posRound y := by
      rw [hn]
      show toDouble ((n:ℚ) * d05) = posRound y
      rw [← hy_def, toDouble_of_pos y hy]
    have heps : (2:ℚ)^(-53:ℤ) = 1/9007199254740992 := eps53_val
    have hd05lt := d05_lt
    have hd05pos := d05_pos
    -- bounds on the floored creator reward
    have hxpos : 0 < posRound y := by
      rw [heps] at hlb
      linarith
    have hyle : y ≤ (n:ℚ) * (1/19) := by
      rw [hy_def]
      exact mul_le_mul_of_nonneg_left hd05lt.le hnq.le
    have hxle : posRound y ≤ (n:ℚ) := by
      rw [heps] at hub
      linarith
    set cz : ℤ := ⌊posRound y⌋ with hcz
    have hc0 : 0 ≤ cz := Int.floor_nonneg.mpr hxpos.le
    have hcn : cz ≤ (n:ℤ) := by
      have := Int.floor_le_floor hxle
      rwa [Int.floor_natCast] at this
    have hfloor : jsFloor (jsMul (jsNumber n) d05) = (cz : ℚ) := by
      rw [hx]
      rfl
    have hsub : jsSub (jsNumber n) ((cz : ℚ)) = (((n:ℤ) - cz : ℤ) : ℚ) := by
      rw [hn]
      show toDouble ((n:ℚ) - (cz:ℚ)) = (((n:ℤ) - cz : ℤ) : ℚ)
      rw [show ((n:ℚ) - (cz:ℚ)) = (((n:ℤ) - cz : ℤ) : ℚ) by push_cast; ring]
      apply toDouble_intCast
      omega
    rw [hfloor, hsub]
    push_cast
    ring

/-! ### Behaviour of the settlement operations -/

theorem settleMarket_success (env : SettleEnv) (s : Store) (id : ℕ) (m : MarketData) :
    (settleMarket env s id m).success
      = (env.estimateOk && env.submitOk && env.confirmOk) := by
  unfold settleMarket
  rcases henv : env.estimateOk <;> rcases hsub : env.submitOk <;>
    rcases hcon : env.confirmOk <;> simp [henv, hsub, hcon]

theorem settleMarket_finalize (env : SettleEnv) (s : Store) (id : ℕ) (m : MarketData) :
    (settleMarket env s id m).finalizeSubmitted = env.estimateOk := by
  unfold settleMarket
  rcases henv : env.estimateOk <;> rcases hsub : env.submitOk <;>
    rcases hcon : env.confirmOk <;> simp [henv, hsub, hcon]

theorem storeSettlementRecord_cases (env : SettleEnv) (s : Store) (id : ℕ) (m : MarketData) :
    storeSettlementRecord env s id m = s
    ∨ storeSettlementRecord env s id m =
        ⟨settlementRecordOf id m env.txHash env.blockNumber env.gasUsed :: s.records⟩ := by
  unfold storeSettlementRecord
  rcases henv : env.insertOk
  · simp
  · rcases hins : insertRecord s (settlementRecordOf id m env.txHash env.blockNumber env.gasUsed)
      with _ | s2
    · simp [hins]
    · have hs2 : s2 = ⟨settlementRecordOf id m env.txHash env.blockNumber env.gasUsed :: s.records⟩ := by
        unfold insertRecord at hins
        split at hins
        · exact absurd hins (by simp)
        · exact (Option.some_inj.mp hins).symm
      simp [hins, hs2]

theorem settleMarket_store_cases (env : SettleEnv) (s : Store) (id : ℕ) (m : MarketData) :
    (settleMarket env s id m).store = s
    ∨ (settleMarket env s id m).store =
        ⟨settlementRecordOf id m env.txHash env.blockNumber env.gasUsed :: s.records⟩ := by
  unfold settleMarket
  rcases henv : env.estimateOk <;> rcases hsub : env.submitOk <;>
    rcases hcon : env.confirmOk <;> simp [henv, hsub, hcon]
  exact storeSettlementRecord_cases env s id m

theorem settleMarket_store_of_fail (env : SettleEnv) (s : Store) (id : ℕ) (m : MarketData)
    (h : (settleMarket env s id m).success = false) :
    (settleMarket env s id m).store = s := by
  unfold settleMarket at h ⊢
  rcases henv : env.estimateOk <;> rcases hsub : env.submitOk <;>
    rcases hcon : env.confirmOk <;> simp [henv, hsub, hcon] at h ⊢

theorem storeSettlementRecord_uniq (env : SettleEnv) (s : Store) (id : ℕ) (m : MarketData)
    (h : uniqueIds s) : uniqueIds (storeSettlementRecord env s id m) := by
  unfold storeSettlementRecord
  rcases henv : env.insertOk
  · exact h
  · rcases hins : insertRecord s (settlementRecordOf id m env.txHash env.blockNumber env.gasUsed)
      with _ | s2
    · simpa [hins] using h
    · unfold insertRecord at hins
      split at hins
      · exact absurd hins (by simp)
      · rename_i hany
        have hs2 : s2 = ⟨settlementRecordOf id m env.txHash env.blockNumber env.gasUsed :: s.records⟩ :=
          (Option.some_inj.mp hins).symm
        simp only [if_true, hins, hs2]
        unfold uniqueIds at h ⊢
        simp only [List.map_cons, List.nodup_cons]
        refine ⟨?_, h⟩
        intro hmem
        apply hany
        simp only [List.any_eq_true]
        obtain ⟨r, hr, hid⟩ := List.mem_map.mp hmem
        exact ⟨r, hr, by simp [hid]⟩

theorem settleMarket_store_uniq (env : SettleEnv) (s : Store) (id : ℕ) (m : MarketData)
    (h : uniqueIds s) : uniqueIds (settleMarket env s id m).store := by
  unfold settleMarket
  rcases henv : env.estimateOk <;> rcases hsub : env.submitOk <;>
    rcases hcon : env.confirmOk <;> simp [henv, hsub, hcon]
  all_goals try exact h
  exact storeSettlementRecord_uniq env s id m h

theorem processMarket_store_uniq (env : ScanEnv) (s : Store) (i : ℕ)
    (h : uniqueIds s) : uniqueIds (processMarket env s i).1 := by
  rcases hfetch : env.fetchMarket i with _ | m
  · simpa [processMarket, hfetch] using h
  · by_cases hact : m.isActive = false
    · simpa [processMarket, hfetch, hact] using h
    · by_cases ht : jsSub (jsNumber m.endTime) (jsNumber env.now) ≤ 0
      · simp only [processMarket, hfetch, hact, ht, if_true, if_false, if_neg, if_pos]
        simpa using settleMarket_store_uniq _ s i m h
      · simpa [processMarket, hfetch, hact, ht] using h

theorem processMarket_snd_indep (env : ScanEnv) (s : Store) (i : ℕ) :
    (processMarket env s i).2 = outcomeOf env i := by
  rcases hfetch : env.fetchMarket i with _ | m
  · simp [processMarket, outcomeOf, hfetch]
  · by_cases hact : m.isActive = false
    · simp [processMarket, outcomeOf, hfetch, hact]
    · by_cases ht : jsSub (jsNumber m.endTime) (jsNumber env.now) ≤ 0
      · simp [processMarket, outcomeOf, hfetch, hact, ht,
          settleMarket_success, settleMarket_finalize]
      · simp [processMarket, outcomeOf, hfetch, hact, ht]

theorem scan_fold_outcomes (env : ScanEnv) :
    ∀ (l : List ℕ) (acc : ScanResult),
      ((l.foldl (scanStep env) acc).outcomes) = acc.outcomes ++ l.map (outcomeOf env) := by
  intro l
  induction l with
  | nil => intro acc; simp
  | cons x xs ih =>
    intro acc
    simp only [List.foldl_cons, List.map_cons]
    rw [ih]
    simp [scanStep, processMarket_snd_indep]

theorem scan_fold_uniq (env : ScanEnv) :
    ∀ (l : List ℕ) (acc : ScanResult), uniqueIds acc.store →
      uniqueIds ((l.foldl (scanStep env) acc).store) := by
  intro l
  induction l with
  | nil => intro acc h; simpa using h
  | cons x xs ih =>
    intro acc h
    simp only [List.foldl_cons]
    exact ih _ (processMarket_store_uniq env acc.store x h)

theorem scan_outcomes (env : ScanEnv) (s : Store) (n : ℕ)
    (hc : env.marketCount = some n) :
    (checkAndSettleMarkets env s).outcomes = (List.range n).map (outcomeOf env) := by
  unfold checkAndSettleMarkets
  rw [hc]
  rw [scan_fold_outcomes env (List.range n) ⟨s, []⟩]
  rfl

theorem scan_store_uniq (env : ScanEnv) (s : Store) (h : uniqueIds s) :
    uniqueIds (checkAndSettleMarkets env s).store := by
  unfold checkAndSettleMarkets
  rcases hc : env.marketCount with _ | n
  · exact h
  · exact scan_fold_uniq env (List.range n) ⟨s, []⟩ h

theorem scanOutcome_eq (env : ScanEnv) (s : Store) (n i : ℕ)
    (hc : env.marketCount = some n) (hi : i < n) :
    scanOutcome env s i = outcomeOf env i := by
  unfold scanOutcome
  rw [scan_outcomes env s n hc, List.getD_eq_getElem?_getD, List.getElem?_map,
    List.getElem?_range hi]
  rfl

theorem outcomeOf_congr (env env2 : ScanEnv) (i : ℕ)
    (hf : env2.fetchMarket i = env.fetchMarket i)
    (hs : env2.settleEnv i = env.settleEnv i)
    (hn : env2.now = env.now) :
    outcomeOf env2 i = outcomeOf env i := by
  unfold outcomeOf processMarket
  rw [hf, hs, hn]

/-! ### Claim theorems -/

/-- Claim C1, counterexample:  At `totalStaked = 9007199254740979` (below
`2^53`, so even exactly converted by `Number`), the persisted
`creatorReward = Math.floor(totalPool * 0.05)` is `450359962737049`, while
exact integer arithmetic gives `floor(totalStaked * 5 / 100) =
450359962737048`: the claimed identity `creatorReward = floor(totalStaked *
5 / 100)` fails, so the conjunction claimed for every non-negative
`totalStaked` is false at this input. -/
theorem c1_counterexample :
    ¬ ((settlementRecordOf 7 mBig "0xhash" 123 50000).creatorReward
          = ((9007199254740979 * 5 / 100 : ℕ) : ℚ)
        ∧ (settlementRecordOf 7 mBig "0xhash" 123 50000).creatorReward
          + (settlementRecordOf 7 mBig "0xhash" 123 50000).voterRewards
          = ((9007199254740979 : ℕ) : ℚ)) := by
  decide

/-- Claim C1, amended:  The reward split is computed in double precision:
`creatorReward = Math.floor(fl(fl(totalStaked) * fl(0.05)))`, which can differ
from `floor(totalStaked * 5 / 100)` and loses precision once `totalStaked`
reaches `2^53`.  What does hold: for every `totalStaked < 2^53` the persisted
record satisfies `creatorReward + voterRewards = totalStaked` exactly. -/
theorem c1_amended (id : ℕ) (m : MarketData) (tx : String) (bn gu : ℕ)
    (h : m.totalStaked < 2^53) :
    (settlementRecordOf id m tx bn gu).creatorReward
      + (settlementRecordOf id m tx bn gu).voterRewards = (m.totalStaked : ℚ) := by
  simpa [settlementRecordOf] using creator_voter_sum m.totalStaked h

/-- Witness for C1 at the spec's worked example `totalStaked = 101`
(`creatorReward = 5`, `voterRewards = 96`). -/
theorem c1_amended_witness :
    mEx.totalStaked < 2^53
    ∧ (settlementRecordOf 7 mEx "0xhash" 123 50000).creatorReward
        + (settlementRecordOf 7 mEx "0xhash" 123 50000).voterRewards
        = (mEx.totalStaked : ℚ) :=
  ⟨by decide, c1_amended 7 mEx "0xhash" 123 50000 (by decide)⟩

/-- Claim C2, counterexample:  The engine never consults the store before
finalizing: with a record for market 7 already persisted, `manualSettle`
still submits the finalize action (`finalizeSubmitted = true`) and reports
success, contradicting "if a record exists it never finalizes that market
again". -/
theorem c2_counterexample :
    (store1.records.any (fun r => r.marketId == 7)) = true
    ∧ (manualSettle (some mEx) envOk store1 7).toOption.map
        (fun r => r.finalizeSubmitted) = some true := by
  decide

/-- Claim C2, amended:  The engine performs no store-existence check before
acting: whether the finalize action is submitted depends only on the gas
estimate (`finalizeSubmitted = estimateOk`), not on the store.  At most one
`SettlementRecord` per market id nevertheless holds, enforced by the store's
unique-key constraint alone: both a single settlement attempt and a whole
scheduled scan preserve `uniqueIds`. -/
theorem c2_amended (env : SettleEnv) (s : Store) (id : ℕ) (m : MarketData)
    (scanEnv : ScanEnv) (h : uniqueIds s) :
    (settleMarket env s id m).finalizeSubmitted = env.estimateOk
    ∧ uniqueIds (settleMarket env s id m).store
    ∧ uniqueIds (checkAndSettleMarkets scanEnv s).store :=
  ⟨settleMarket_finalize env s id m, settleMarket_store_uniq env s id m h,
    scan_store_uniq scanEnv s h⟩

/-- Witness for C2 on the one-record store. -/
theorem c2_amended_witness :
    uniqueIds store1
    ∧ ((settleMarket envOk store1 7 mEx).finalizeSubmitted = envOk.estimateOk
        ∧ uniqueIds (settleMarket envOk store1 7 mEx).store
        ∧ uniqueIds (checkAndSettleMarkets scanEnvEx store1).store) :=
  ⟨by decide, c2_amended envOk store1 7 mEx scanEnvEx (by decide)⟩

/-- Claim C3, counterexample:  A record-persistence failure does not make
`settleMarket` return failure: with every ledger step succeeding but the
store `save()` failing, the call still returns `true` (and no record is
persisted), contradicting "returns failure whenever any of its steps fails
... or record persistence". -/
theorem c3_counterexample :
    envInsertFail.insertOk = false
    ∧ (settleMarket envInsertFail store0 7 mEx).success = true
    ∧ (settleMarket envInsertFail store0 7 mEx).store = store0 := by
  decide

/-- Claim C3, amended:  `settleMarket` returns failure exactly when cost
estimation, submission, or confirmation fails — a persistence failure is
swallowed inside `storeSettlementRecord` and the call still returns success.
The all-or-nothing half of the claim does hold: on failure the store is
untouched, and in every case the store is either unchanged or extended by
exactly one complete record. -/
theorem c3_amended (env : SettleEnv) (s : Store) (id : ℕ) (m : MarketData) :
    ((settleMarket env s id m).success = false
        ↔ (env.estimateOk = false ∨ env.submitOk = false ∨ env.confirmOk = false))
    ∧ ((settleMarket env s id m).success = false → (settleMarket env s id m).store = s)
    ∧ ((settleMarket env s id m).store = s
        ∨ (settleMarket env s id m).store =
            ⟨settlementRecordOf id m env.txHash env.blockNumber env.gasUsed :: s.records⟩) := by
  refine ⟨?_, settleMarket_store_of_fail env s id m, settleMarket_store_cases env s id m⟩
  rw [settleMarket_success]
  rcases henv : env.estimateOk <;> rcases hsub : env.submitOk <;>
    rcases hcon : env.confirmOk <;> simp

/-- Witness for C3 with a failing confirmation step. -/
theorem c3_amended_witness :
    ((settleMarket envConfirmFail store0 7 mEx).success = false
        ↔ (envConfirmFail.estimateOk = false ∨ envConfirmFail.submitOk = false
            ∨ envConfirmFail.confirmOk = false))
    ∧ ((settleMarket envConfirmFail store0 7 mEx).success = false →
        (settleMarket envConfirmFail store0 7 mEx).store = store0)
    ∧ ((settleMarket envConfirmFail store0 7 mEx).store = store0
        ∨ (settleMarket envConfirmFail store0 7 mEx).store =
            ⟨settlementRecordOf 7 mEx envConfirmFail.txHash envConfirmFail.blockNumber
              envConfirmFail.gasUsed :: store0.records⟩) :=
  c3_amended envConfirmFail store0 7 mEx

/-- Claim C9, confirmed:  Every record the engine persists has an empty
`participants` list: `storeSettlementRecord` never populates the per-user
outcomes, so a store holding only engine-written records answers every
by-participant query with the empty list. -/
theorem c9_empty_participants (id : ℕ) (m : MarketData) (tx : String) (bn gu : ℕ)
    (env : SettleEnv) (s : Store) (addr : String) :
    (settlementRecordOf id m tx bn gu).participants = []
    ∧ (∀ r, r ∈ (settleMarket env s id m).store.records → r ∉ s.records →
        r.participants = [])
    ∧ ((∀ r, r ∈ s.records → r.participants = []) → findByParticipant s addr = []) := by
  refine ⟨rfl, ?_, ?_⟩
  · intro r hr hnot
    rcases settleMarket_store_cases env s id m with hc | hc
    · rw [hc] at hr
      exact absurd hr hnot
    · rw [hc] at hr
      rcases List.mem_cons.mp hr with he | he
      · rw [he]
        rfl
      · exact absurd he hnot
  · intro hall
    unfold findByParticipant
    apply List.filter_eq_nil_iff.mpr
    intro r hr
    simp [hall r hr]

/-- Witness for C9 on the empty store and the example market. -/
theorem c9_empty_participants_witness :
    (settlementRecordOf 7 mEx "0xhash" 123 50000).participants = []
    ∧ (∀ r, r ∈ (settleMarket envOk store0 7 mEx).store.records → r ∉ store0.records →
        r.participants = [])
    ∧ ((∀ r, r ∈ store0.records → r.participants = []) →
        findByParticipant store0 "0xAlice" = []) :=
  c9_empty_participants 7 mEx "0xhash" 123 50000 envOk store0 "0xAlice"

/-- Claim C10, counterexample:  A persistence failure after a confirmed
settlement is not surfaced as `false`: `manualSettle` returns success
(`success = true`), contradicting "every failure after the
fetch ... is surfaced only as a false return value". -/
theorem c10_counterexample :
    envInsertFail.insertOk = false
    ∧ (manualSettle (some mEx) envInsertFail store0 7).toOption
        = some ⟨true, true, store0⟩ := by
  decide

/-- Claim C10, amended:  `manualSettle` throws exactly when the fresh snapshot
fetch fails; with a snapshot it always returns (never throws) the
`settleMarket` result, whose boolean equals
`estimateOk && submitOk && confirmOk` — estimation, submission and
confirmation failures yield `false`, while a persistence failure leaves the
boolean `true`. -/
theorem c10_amended (fetch : Option MarketData) (env : SettleEnv) (s : Store) (id : ℕ) :
    (manualSettle none env s id = .error "getMarket failed")
    ∧ (∀ m, fetch = some m →
        manualSettle fetch env s id = .ok (settleMarket env s id m)
        ∧ (settleMarket env s id m).success
          = (env.estimateOk && env.submitOk && env.confirmOk)) := by
  refine ⟨rfl, ?_⟩
  intro m hm
  subst hm
  exact ⟨rfl, settleMarket_success env s id m⟩

/-- Witness for C10 with a failing confirmation step. -/
theorem c10_amended_witness :
    (manualSettle none envConfirmFail store0 7 = .error "getMarket failed")
    ∧ (∀ m, (some mEx : Option MarketData) = some m →
        manualSettle (some mEx) envConfirmFail store0 7
          = .ok (settleMarket envConfirmFail store0 7 m)
        ∧ (settleMarket envConfirmFail store0 7 m).success
          = (envConfirmFail.estimateOk && envConfirmFail.submitOk
              && envConfirmFail.confirmOk)) :=
  c10_amended (some mEx) envConfirmFail store0 7

theorem schedStep_inv (s : SchedState) (e : SchedEvent)
    (h1 : s.activeScans ≤ 1) (h2 : s.running = true ↔ s.activeScans = 1) :
    (schedStep s e).activeScans ≤ 1
    ∧ ((schedStep s e).running = true ↔ (schedStep s e).activeScans = 1) := by
  rcases e with _ | b
  · by_cases hr : s.running = true
    · have hstep : schedStep s .tick = { s with skippedCount := s.skippedCount + 1 } := by
        simp [schedStep, hr]
      rw [hstep]
      exact ⟨h1, h2⟩
    · have hr2 : s.running = false := by
        rcases hhh : s.running
        · rfl
        · exact absurd hhh hr
      have ha0 : s.activeScans = 0 := by
        by_contra hne
        have h1' : s.activeScans = 1 := by omega
        have hrun := h2.mpr h1'
        rw [hrun] at hr2
        exact absurd hr2 (by decide)
      simp [schedStep, hr2, ha0]
  · by_cases ha : s.activeScans = 0
    · simp only [schedStep, ha, if_pos rfl]
      exact ⟨h1, h2⟩
    · have ha1 : s.activeScans = 1 := by omega
      simp [schedStep, ha, ha1]

theorem schedRun_inv (l : List SchedEvent) :
    ∀ (s0 : SchedState), s0.activeScans ≤ 1 → (s0.running = true ↔ s0.activeScans = 1) →
      ((l.foldl schedStep s0).activeScans ≤ 1
        ∧ ((l.foldl schedStep s0).running = true ↔ (l.foldl schedStep s0).activeScans = 1)) := by
  induction l with
  | nil => intro s0 h1 h2; exact ⟨h1, h2⟩
  | cons e es ih =>
    intro s0 h1 h2
    simp only [List.foldl_cons]
    obtain ⟨g1, g2⟩ := schedStep_inv s0 e h1 h2
    exact ih (schedStep s0 e) g1 g2

/-- Claim C4, confirmed:  After any sequence of scheduler events from the
initial state, at most one scan is ever in flight and the `isRunning` lock is
set exactly while one is; a tick that fires while the lock is held only
increments the skip count (no scan starts, store and ledger untouched); and a
scan exit — normal or throwing — always clears the lock (the `finally`
block). -/
theorem c4_scan_lock (evs : List SchedEvent) :
    ((schedRun evs).activeScans ≤ 1
      ∧ ((schedRun evs).running = true ↔ (schedRun evs).activeScans = 1))
    ∧ (∀ s : SchedState, s.running = true →
        schedStep s .tick = { s with skippedCount := s.skippedCount + 1 })
    ∧ (∀ (s : SchedState) (b : Bool), 0 < s.activeScans →
        (schedStep s (.scanExit b)).running = false) := by
  refine ⟨schedRun_inv evs ⟨false, 0, 0, 0⟩ (by decide) (by decide), ?_, ?_⟩
  · intro s hr
    simp [schedStep, hr]
  · intro s b ha
    have : ¬ s.activeScans = 0 := by omega
    simp [schedStep, this]

/-- Witness for C4: two back-to-back ticks, then a throwing scan exit. -/
theorem c4_scan_lock_witness :
    (((schedRun [SchedEvent.tick, SchedEvent.tick, SchedEvent.scanExit true]).activeScans ≤ 1)
      ∧ ((schedRun [SchedEvent.tick, SchedEvent.tick, SchedEvent.scanExit true]).running = true
          ↔ (schedRun [SchedEvent.tick, SchedEvent.tick,
              SchedEvent.scanExit true]).activeScans = 1))
    ∧ (schedStep ⟨true, 1, 1, 0⟩ .tick = ⟨true, 1, 1, 1⟩)
    ∧ ((schedStep ⟨true, 1, 1, 0⟩ (.scanExit true)).running = false) := by
  have h := c4_scan_lock [SchedEvent.tick, SchedEvent.tick, SchedEvent.scanExit true]
  exact ⟨h.1, h.2.1 ⟨true, 1, 1, 0⟩ rfl, h.2.2 ⟨true, 1, 1, 0⟩ true (by decide)⟩

/-- Model evaluation: the five-market example scan records an outcome for
every index — a failed estimate at index 0 and a failed fetch at index 1 do
not stop index 2 from settling, index 3 from being classified as not yet
eligible, or index 4 from being skipped as inactive. -/
theorem scanEnvEx_outcomes :
    (checkAndSettleMarkets scanEnvEx store0).outcomes
      = [.attempted false false, .fetchError, .attempted true true,
          .notYetEligible, .inactive] := by
  decide

/-- Claim C5, confirmed:  Within a scan, a fetched market that is still active
with `timeLeft > 0` is classified "not yet eligible" and the finalize action
is never invoked for it; a fetched market with `active = false` is skipped,
again without invoking finalize. -/
theorem c5_eligibility_gate (env : ScanEnv) (s : Store) (n i : ℕ) (m : MarketData)
    (hc : env.marketCount = some n) (hi : i < n) (hf : env.fetchMarket i = some m) :
    (m.isActive = true → 0 < jsSub (jsNumber m.endTime) (jsNumber env.now) →
        scanOutcome env s i = .notYetEligible
        ∧ (scanOutcome env s i).finalizeInvoked = false)
    ∧ (m.isActive = false →
        scanOutcome env s i = .inactive
        ∧ (scanOutcome env s i).finalizeInvoked = false) := by
  have he := scanOutcome_eq env s n i hc hi
  constructor
  · intro hact ht
    have hout : outcomeOf env i = .notYetEligible := by
      unfold outcomeOf processMarket
      rw [hf]
      simp [hact, not_le.mpr ht]
    rw [he, hout]
    exact ⟨rfl, rfl⟩
  · intro hact
    have hout : outcomeOf env i = .inactive := by
      unfold outcomeOf processMarket
      rw [hf]
      simp [hact]
    rw [he, hout]
    exact ⟨rfl, rfl⟩

/-- Witness for C5: market 3 of the example scan (active, future deadline) is
not yet eligible; market 4 (inactive) is skipped. -/
theorem c5_eligibility_gate_witness :
    (scanOutcome scanEnvEx store0 3 = .notYetEligible
      ∧ (scanOutcome scanEnvEx store0 3).finalizeInvoked = false)
    ∧ (scanOutcome scanEnvEx store0 4 = .inactive
      ∧ (scanOutcome scanEnvEx store0 4).finalizeInvoked = false) := by
  have h3 := c5_eligibility_gate scanEnvEx store0 5 3 mFuture rfl (by decide) (by decide)
  have h4 := c5_eligibility_gate scanEnvEx store0 5 4 mInactive rfl (by decide) (by decide)
  exact ⟨h3.1 (by decide) (by decide), h4.2 (by decide)⟩

/-- Claim C6, confirmed:  A scan over `n` markets records exactly one outcome
per index; the outcome at index `i` equals `outcomeOf env i`, which depends
only on index `i`'s own snapshot fetch, settlement-step outcomes and the
clock — so a fetch or settlement failure at one index cannot change what
happens at any other index. -/
theorem c6_per_market_isolation (env : ScanEnv) (s : Store) (n : ℕ)
    (hc : env.marketCount = some n) :
    (checkAndSettleMarkets env s).outcomes.length = n
    ∧ (∀ i, i < n → scanOutcome env s i = outcomeOf env i)
    ∧ (∀ (env2 : ScanEnv) (i : ℕ), env2.fetchMarket i = env.fetchMarket i →
        env2.settleEnv i = env.settleEnv i → env2.now = env.now →
        outcomeOf env2 i = outcomeOf env i) := by
  refine ⟨?_, fun i hi => scanOutcome_eq env s n i hc hi,
    fun env2 i hf hs2 hn => outcomeOf_congr env env2 i hf hs2 hn⟩
  rw [scan_outcomes env s n hc]
  simp

/-- Witness for C6 on the five-market example scan. -/
theorem c6_per_market_isolation_witness :
    scanEnvEx.marketCount = some 5
    ∧ ((checkAndSettleMarkets scanEnvEx store0).outcomes.length = 5
        ∧ (∀ i, i < 5 → scanOutcome scanEnvEx store0 i = outcomeOf scanEnvEx i)
        ∧ (∀ (env2 : ScanEnv) (i : ℕ), env2.fetchMarket i = scanEnvEx.fetchMarket i →
            env2.settleEnv i = scanEnvEx.settleEnv i → env2.now = scanEnvEx.now →
            outcomeOf env2 i = outcomeOf scanEnvEx i)) :=
  ⟨rfl, c6_per_market_isolation scanEnvEx store0 5 rfl⟩

/-- Claim C7, counterexample:  With `yesVotes = 2^53 + 1` strictly greater
than `noVotes = 2^53`, both convert to the same double, so the persisted
`winnerSide` is `"lame"` — the claimed "`winnerSide` is SIDE_A iff
`yesVotes > noVotes`" fails at this input. -/
theorem c7_counterexample :
    mHugeVotes.noVotes < mHugeVotes.yesVotes
    ∧ (settlementRecordOf 7 mHugeVotes "0xhash" 123 50000).winnerSide = "lame" := by
  decide

/-- Claim C7, amended:  The comparison is made on the `Number`-converted
tallies.  For tallies below `2^53` the conversion is exact and `winnerSide`
is `"funny"` iff `yesVotes > noVotes`; a tie always resolves to `"lame"`. -/
theorem c7_amended (id : ℕ) (m : MarketData) (tx : String) (bn gu : ℕ)
    (hy : m.yesVotes < 2^53) (hn : m.noVotes < 2^53) :
    ((settlementRecordOf id m tx bn gu).winnerSide = "funny" ↔ m.noVotes < m.yesVotes)
    ∧ (m.yesVotes = m.noVotes →
        (settlementRecordOf id m tx bn gu).winnerSide = "lame") := by
  have hyq : jsNumber m.yesVotes = (m.yesVotes : ℚ) := toDouble_natCast _ hy
  have hnq : jsNumber m.noVotes = (m.noVotes : ℚ) := toDouble_natCast _ hn
  have hws : (settlementRecordOf id m tx bn gu).winnerSide
      = if jsNumber m.yesVotes > jsNumber m.noVotes then "funny" else "lame" := rfl
  constructor
  · rw [hws, hyq, hnq]
    by_cases hlt : (m.noVotes : ℚ) < (m.yesVotes : ℚ)
    · rw [if_pos hlt]
      simp only [true_iff]
      exact_mod_cast hlt
    · rw [if_neg hlt]
      constructor
      · intro hcontr
        exact absurd hcontr (by decide)
      · intro hlt2
        exact absurd (show (m.noVotes : ℚ) < (m.yesVotes : ℚ) by exact_mod_cast hlt2) hlt
  · intro heq
    rw [hws, hyq, hnq, heq]
    simp

/-- Witness for C7 on the tied market: `winnerSide` is `"lame"`. -/
theorem c7_amended_witness :
    (mTie.yesVotes < 2^53 ∧ mTie.noVotes < 2^53)
    ∧ (((settlementRecordOf 7 mTie "0xhash" 123 50000).winnerSide = "funny"
          ↔ mTie.noVotes < mTie.yesVotes)
        ∧ (mTie.yesVotes = mTie.noVotes →
            (settlementRecordOf 7 mTie "0xhash" 123 50000).winnerSide = "lame")) :=
  ⟨⟨by decide, by decide⟩,
    c7_amended 7 mTie "0xhash" 123 50000 (by decide) (by decide)⟩

/-- Claim C8, counterexample:  With deadline `2^53 + 1` (not representable as
a double) and clock `1760140800`, the returned `timeLeft` is
`9007197494600192`, while `deadline - now = 9007197494600193`: the claimed
equation `timeLeft = deadline - now` fails at this input. -/
theorem c8_counterexample :
    (getSettlementStatus (some mLateHuge) 1760140800 7).toOption.map
        StatusProjection.timeLeft = some (9007197494600192 : ℚ)
    ∧ (mLateHuge.endTime : ℚ) - ((1760140800 : ℕ) : ℚ) = (9007197494600193 : ℚ)
    ∧ (9007197494600192 : ℚ) ≠ (9007197494600193 : ℚ) := by
  refine ⟨by decide, by decide, by decide⟩

/-- Claim C8, amended:  `getSettlementStatus` is a pure projection of the
fetched snapshot: it returns the `active` flag, the staked amount,
`timeLeft = Number(endTime) - now` — equal to `deadline - now` whenever both
are below `2^53` — and `readyForSettlement = (timeLeft <= 0 && active)`, so a
market past its deadline but still active reports ready, and a settled one
reports `active = false`. -/
theorem c8_amended (m : MarketData) (now id : ℕ)
    (he : m.endTime < 2^53) (hn : now < 2^53) :
    ∃ p : StatusProjection,
      getSettlementStatus (some m) now id = .ok p
      ∧ p.marketId = id
      ∧ p.isActive = m.isActive
      ∧ p.timeLeft = (m.endTime : ℚ) - ((now : ℕ) : ℚ)
      ∧ p.readyForSettlement = (decide (p.timeLeft ≤ 0) && m.isActive)
      ∧ p.totalStakedWei = m.totalStaked := by
  have h53 : (2:ℕ)^53 = 9007199254740992 := by norm_num
  refine ⟨_, rfl, rfl, rfl, ?_, rfl, rfl⟩
  show jsSub (jsNumber m.endTime) (jsNumber now) = (m.endTime : ℚ) - ((now : ℕ) : ℚ)
  rw [show jsNumber m.endTime = ((m.endTime : ℕ) : ℚ) from toDouble_natCast _ he,
    show jsNumber now = ((now : ℕ) : ℚ) from toDouble_natCast _ hn]
  show toDouble (((m.endTime : ℕ) : ℚ) - ((now : ℕ) : ℚ)) = _
  rw [show (((m.endTime : ℕ) : ℚ) - ((now : ℕ) : ℚ))
      = ((((m.endTime : ℕ) : ℤ) - ((now : ℕ) : ℤ) : ℤ) : ℚ) by push_cast; ring]
  rw [toDouble_intCast _ (by rw [h53] at he hn ⊢; omega)]

/-- Witness for C8: the example market is 140800 seconds past its deadline
and still active, so it reports `readyForSettlement`. -/
theorem c8_amended_witness :
    (mEx.endTime < 2^53 ∧ 1760140800 < 2^53)
    ∧ ∃ p : StatusProjection,
        getSettlementStatus (some mEx) 1760140800 7 = .ok p
        ∧ p.marketId = 7
        ∧ p.isActive = mEx.isActive
        ∧ p.timeLeft = (mEx.endTime : ℚ) - ((1760140800 : ℕ) : ℚ)
        ∧ p.readyForSettlement = (decide (p.timeLeft ≤ 0) && mEx.isActive)
        ∧ p.totalStakedWei = mEx.totalStaked :=
  ⟨⟨by decide, by decide⟩, c8_amended mEx 1760140800 7 (by decide) (by decide)⟩
